import Mathlib

/-!
# Herogate log aggregation (`api/logs.go`)

A shallow embedding of `Client.DescribeLogs`, `Client.describeBuilderLogs` and
`Client.describeDeployerLogs`, followed by the properties proved about them.

Modelling conventions:

* The three AWS backends held by `Client` are fields of a record of functions; a call
  either fails with a Go `error` or yields the response payload (`Except`).
* Pointer-typed scalars of the AWS SDK (`*string`, `*int64`, `*time.Time`) are `Option`s and are
  read through the SDK accessors (`aws.StringValue`, ...), exactly as the source does. The
  pointer `Build.Logs`, which the source dereferences unguarded, is an `Option` as well; the
  elements of the response slices (`Builds`, `Events`, `Services`) are taken to be non-nil.
* Every function returns a `Run`: the backend calls it made, in order, and how it ended
  (a normal return, a `logrus` `Fatal` that exits the process, or a nil-pointer panic).
* `sort.Slice` is a parameter constrained only by its contract (`SortSliceContract`).
-/

namespace Herogate

/-! ## Values of the Go standard library and of the AWS SDK -/

/-- Instant of a Go `time.Time`, counted in nanoseconds since the Unix epoch. The location
attached to a `time.Time` is not represented: it plays no part in `Before`. -/
structure Time where
  unixNano : Int
deriving DecidableEq, Repr

/-- Go `time.Unix(sec, nsec)`. -/
def Time.Unix (sec nsec : Int) : Time := ⟨sec * 1000000000 + nsec⟩

/-- Go zero value `time.Time{}`: January 1 of year 1, 00:00:00 UTC. -/
def Time.zero : Time := Time.Unix (-62135596800) 0

/-- Go `t.UTC()`: the same instant with the location set to UTC. -/
def Time.UTC (t : Time) : Time := t

/-- Go `t.Before(u)`. -/
def Time.Before (t u : Time) : Bool := decide (t.unixNano < u.unixNano)

/-- Two's-complement wrap-around of an `int64` arithmetic result. -/
def wrapInt64 (x : Int) : Int := (x + 2 ^ 63) % 2 ^ 64 - 2 ^ 63

/-- Go `error` value: either one implementing `awserr.Error` (it has a code), or any other. -/
inductive GoError where
  | awserr (code message : String)
  | other (text : String)
deriving DecidableEq, Repr

/-- The test `aerr, ok := err.(awserr.Error); ok && aerr.Code() == code`. -/
def GoError.hasCode (err : GoError) (code : String) : Bool :=
  match err with
  | .awserr c _ => c == code
  | .other _ => false

/-- SDK constant `codebuild.ErrCodeResourceNotFoundException`. -/
def ErrCodeResourceNotFoundException : String := "ResourceNotFoundException"

/-- SDK constant `ecs.ErrCodeClusterNotFoundException`. -/
def ErrCodeClusterNotFoundException : String := "ClusterNotFoundException"

/-- SDK accessor `aws.StringValue`: the pointed-to string, or the empty string for nil. -/
def StringValue (v : Option String) : String := v.getD ""

/-- SDK accessor `aws.Int64Value`: the pointed-to integer, or zero for nil. -/
def Int64Value (v : Option Int) : Int := v.getD 0

/-- SDK accessor `aws.TimeValue`: the pointed-to time, or `time.Time{}` for nil. -/
def TimeValue (v : Option Time) : Time := v.getD Time.zero

/-- SDK accessor `aws.MillisecondsTimeValue`: `time.Unix(0, *v * 1000000)` with the product
computed in `int64`, or `time.Time{}` for nil. -/
def MillisecondsTimeValue (v : Option Int) : Time :=
  match v with
  | some ms => Time.Unix 0 (wrapInt64 (ms * 1000000))
  | none => Time.zero

/-- Go `strings.TrimRight(s, cutset)`: `s` without its trailing characters that occur in
`cutset`. -/
def TrimRight (s cutset : String) : String :=
  ⟨(s.data.reverse.dropWhile (fun ch => cutset.data.contains ch)).reverse⟩

/-- Go `strings.HasSuffix(s, "\n")`: whether `s` ends with a newline character. -/
def endsWithNewline (s : String) : Bool := s.data.getLast? == some (Char.ofNat 10)

/-- Go verb `%d` applied to an `int64`: decimal digits, preceded by `-` when negative. -/
def formatDecimal (v : Int) : String := v.repr

/-- Go `fmt.Sprintf("%s-%d-%s", buildID, timestamp, message)`. -/
def Sprintf (buildID : String) (timestamp : Int) (message : String) : String :=
  buildID ++ "-" ++ formatDecimal timestamp ++ "-" ++ message

/-! ## Types of the packages `log` and `options` -/

/-- Modelled from the spec: the constant `log.HerogateSource` is declared in package `log`,
whose file is not among the sources. The spec calls it the single recognized native-source
value, distinct from the empty (unspecified) source; it does not spell the value, and no
statement below depends on which non-empty string it is. -/
def HerogateSource : String := "herogate"

/-- Modelled from the spec: the constant `log.BuilderProcess` of package `log`; the spec
spells the process value `builder`. -/
def BuilderProcess : String := "builder"

/-- Modelled from the spec: the constant `log.DeployerProcess` of package `log`; the spec
spells the process value `deployer`. -/
def DeployerProcess : String := "deployer"

/-- Modelled from the spec: the struct `log.Log` of package `log` (the canonical log record),
with the five fields the source assigns. -/
structure Log where
  ID : String
  Timestamp : Time
  Source : String
  Process : String
  Message : String
deriving DecidableEq, Repr

/-- Modelled from the spec: the struct `options.DescribeLogs` of package `options` (the
selector), with the two fields the source reads. -/
structure DescribeLogsOptions where
  Source : String
  Process : String
deriving DecidableEq, Repr

/-! ## Backend payloads and the client -/

/-- SDK type `cloudwatchlogs.OutputLogEvent`. -/
structure OutputLogEvent where
  Timestamp : Option Int
  Message : Option String
deriving DecidableEq, Repr

/-- SDK type `codebuild.LogsLocation`. -/
structure LogsLocation where
  GroupName : Option String
  StreamName : Option String
deriving DecidableEq, Repr

/-- SDK type `codebuild.Build`; `Logs` is a pointer and may be nil. -/
structure Build where
  Logs : Option LogsLocation
deriving DecidableEq, Repr

/-- SDK type `ecs.ServiceEvent`. -/
structure ServiceEvent where
  Id : Option String
  CreatedAt : Option Time
  Message : Option String
deriving DecidableEq, Repr

/-- SDK type `ecs.Service`. -/
structure Service where
  Events : List ServiceEvent
deriving DecidableEq, Repr

/-- The backends reached through `Client` by the log functions: `codeBuild`,
`cloudWatchLogs` and `ecs`. Each field is the response of the backend to a request. -/
structure Client where
  ListBuildsForProject : (projectName : String) → Except GoError (List (Option String))
  BatchGetBuilds : (ids : List (Option String)) → Except GoError (List Build)
  GetLogEvents : (logGroupName logStreamName : Option String) →
    Except GoError (List OutputLogEvent)
  DescribeServices : (cluster : String) → (services : List String) →
    Except GoError (List Service)

/-- A request sent to a backend. -/
inductive Call where
  | ListBuildsForProject (projectName : String)
  | BatchGetBuilds (ids : List (Option String))
  | GetLogEvents (logGroupName logStreamName : Option String)
  | DescribeServices (cluster : String) (services : List String)
deriving DecidableEq, Repr

/-- Whether a request goes to the build backend (CodeBuild and its CloudWatch log stream). -/
def Call.isBuild : Call → Bool
  | .ListBuildsForProject _ => true
  | .BatchGetBuilds _ => true
  | .GetLogEvents _ _ => true
  | .DescribeServices _ _ => false

/-- Whether a request goes to the deployment backend (ECS). -/
def Call.isDeploy : Call → Bool
  | .DescribeServices _ _ => true
  | _ => false

/-- How a function ended. -/
inductive Outcome where
  /-- A normal return of `(logs, err)`; `err = none` is Go `nil`. -/
  | ret (logs : List Log) (err : Option GoError)
  /-- The call `logrus...Fatal(msg + err.Error())`, which logs and exits the process. -/
  | fatal (msg : String) (err : GoError)
  /-- A run-time panic caused by dereferencing a nil pointer. -/
  | panic
deriving DecidableEq, Repr

/-- One execution: the backend requests made, in order, and the outcome. -/
structure Run where
  calls : List Call
  out : Outcome
deriving DecidableEq, Repr

/-! ## `api/logs.go` -/

/-- The record appended by the loop body of `describeBuilderLogs` (lines 110-116). -/
def builderLog (buildID : Option String) (event : OutputLogEvent) : Log :=
  { ID := Sprintf (StringValue buildID) (Int64Value event.Timestamp) (StringValue event.Message)
    Timestamp := (MillisecondsTimeValue event.Timestamp).UTC
    Source := HerogateSource
    Process := BuilderProcess
    Message := TrimRight (StringValue event.Message) "\n" }

/-- The record appended by the loop body of `describeDeployerLogs` (lines 142-148). -/
def deployerLog (event : ServiceEvent) : Log :=
  { ID := StringValue event.Id
    Timestamp := TimeValue event.CreatedAt
    Source := HerogateSource
    Process := DeployerProcess
    Message := StringValue event.Message }

/-- Go method `Client.describeBuilderLogs` (lines 65-120). -/
def describeBuilderLogs (c : Client) (appName : String) : Run :=
  let list := Call.ListBuildsForProject appName
  match c.ListBuildsForProject appName with
  | .error err =>
    if err.hasCode ErrCodeResourceNotFoundException then
      ⟨[list], .ret [] (some err)⟩
    else
      ⟨[list], .fatal "Failed to get the project: " err⟩
  | .ok [] => ⟨[list], .ret [] none⟩
  | .ok (buildID :: _) =>
    let batch := Call.BatchGetBuilds [buildID]
    match c.BatchGetBuilds [buildID] with
    | .error err => ⟨[list, batch], .fatal "Failed to get the build: " err⟩
    | .ok [] => ⟨[list, batch], .ret [] none⟩
    | .ok (build :: _) =>
      match build.Logs with
      | none => ⟨[list, batch], .panic⟩
      | some location =>
        let group := location.GroupName
        let stream := location.StreamName
        let fetch := Call.GetLogEvents group stream
        match c.GetLogEvents group stream with
        | .error err => ⟨[list, batch, fetch], .fatal "Failed to get the build logs: " err⟩
        | .ok events =>
          ⟨[list, batch, fetch],
            .ret (events.foldl (fun logs event => logs ++ [builderLog buildID event]) []) none⟩

/-- Go method `Client.describeDeployerLogs` (lines 122-152). -/
def describeDeployerLogs (c : Client) (appName : String) : Run :=
  let describe := Call.DescribeServices appName [appName]
  match c.DescribeServices appName [appName] with
  | .error err =>
    if err.hasCode ErrCodeClusterNotFoundException then
      ⟨[describe], .ret [] (some err)⟩
    else
      ⟨[describe], .fatal "Failed to get the ECS service: " err⟩
  | .ok [] => ⟨[describe], .ret [] none⟩
  | .ok (service :: _) =>
    ⟨[describe],
      .ret (service.Events.foldl (fun logs event => logs ++ [deployerLog event]) []) none⟩

/-- The comparison handed to `sort.Slice` (line 59), on the elements rather than on indices. -/
def lessByTimestamp (a b : Log) : Bool := a.Timestamp.Before b.Timestamp

/-- The tail of `DescribeLogs` (lines 58-62): sort `logs` in place and return them. -/
def sortAndReturn (sortSlice : (Log → Log → Bool) → List Log → List Log)
    (calls : List Call) (logs : List Log) : Run :=
  ⟨calls, .ret (sortSlice lessByTimestamp logs) none⟩

/-- Go method `Client.DescribeLogs` (lines 21-63). `sortSlice` stands for the library
function `sort.Slice`; `options = none` is the nil pointer. -/
def DescribeLogs (sortSlice : (Log → Log → Bool) → List Log → List Log)
    (c : Client) (appName : String) (options : Option DescribeLogsOptions) : Run :=
  match options with
  | none => ⟨[], .ret [] none⟩
  | some options =>
    if options.Source = "" ∨ options.Source = HerogateSource then
      if options.Process = "" then
        let b := describeBuilderLogs c appName
        match b.out with
        | .ret builderLogs none =>
          let d := describeDeployerLogs c appName
          match d.out with
          | .ret deployerLogs none =>
            sortAndReturn sortSlice (b.calls ++ d.calls) (builderLogs ++ deployerLogs)
          | .ret _ (some err) => ⟨b.calls ++ d.calls, .ret [] (some err)⟩
          | stop => ⟨b.calls ++ d.calls, stop⟩
        | .ret _ (some err) => ⟨b.calls, .ret [] (some err)⟩
        | stop => ⟨b.calls, stop⟩
      else if options.Process = BuilderProcess then
        let b := describeBuilderLogs c appName
        match b.out with
        | .ret builderLogs none => sortAndReturn sortSlice b.calls builderLogs
        | .ret _ (some err) => ⟨b.calls, .ret [] (some err)⟩
        | stop => ⟨b.calls, stop⟩
      else if options.Process = DeployerProcess then
        let d := describeDeployerLogs c appName
        match d.out with
        | .ret deployerLogs none => sortAndReturn sortSlice d.calls deployerLogs
        | .ret _ (some err) => ⟨d.calls, .ret [] (some err)⟩
        | stop => ⟨d.calls, stop⟩
      else sortAndReturn sortSlice [] []
    else sortAndReturn sortSlice [] []

/-! ## `sort.Slice` -/

/-- Contract of the library function `sort.Slice`: the slice is rearranged (the result is a
permutation of the input) and, when `less` is a strict weak ordering, no element of the
result is `less` than one standing before it. -/
def SortSliceContract (sortSlice : (Log → Log → Bool) → List Log → List Log) : Prop :=
  ∀ (less : Log → Log → Bool) (logs : List Log),
    (sortSlice less logs).Perm logs ∧
    ((∀ a b, less a b = true → less b a = false) →
      (∀ a b c, less a b = false → less b c = false → less a c = false) →
      (sortSlice less logs).Pairwise (fun a b => less b a = false))

/-- Insertion sort, a function meeting `SortSliceContract` (it is what `sort.Slice` runs on
short slices). -/
def insertionSortSlice (less : Log → Log → Bool) (logs : List Log) : List Log :=
  logs.insertionSort (fun a b => less b a = false)

/-! ## Example backends -/

/-- A backend in which nothing exists: every request fails with a not-found error. -/
def emptyClient : Client :=
  { ListBuildsForProject := fun _ => .error (.awserr ErrCodeResourceNotFoundException "no project")
    BatchGetBuilds := fun _ => .ok []
    GetLogEvents := fun _ _ => .ok []
    DescribeServices := fun _ _ => .error (.awserr ErrCodeClusterNotFoundException "no cluster") }

/-- The example scenario: one build with two output lines at 1 ms and 3 ms, and a service with
one event at 2 ms. -/
def exampleClient : Client :=
  { ListBuildsForProject := fun _ => .ok [some "myapp:1", some "myapp:0"]
    BatchGetBuilds := fun _ => .ok [⟨some ⟨some "group", some "stream"⟩⟩]
    GetLogEvents := fun _ _ => .ok [⟨some 1, some "start\n"⟩, ⟨some 3, some "done\n\n"⟩]
    DescribeServices := fun _ _ =>
      .ok [⟨[⟨some "ev-1", some (Time.Unix 0 2000000), some "steady state"⟩]⟩] }

/-! ## Predicates used in the statements, and further example backends -/

/-- Value of a string of decimal digits, most significant digit first. -/
def digitsValue (ds : List Char) : Nat :=
  ds.foldl (fun acc ch => acc * 10 + (ch.toNat - 48)) 0

/-- No two records at different positions with the same process have the same id. -/
def UniqueIDsPerProcess (r : List Log) : Prop :=
  ∀ (i j : Nat) (hi : i < r.length) (hj : j < r.length),
    i ≠ j → r[i].Process = r[j].Process → r[i].ID ≠ r[j].ID

/-- The pair on which `UniqueIDsPerProcess` compares records. -/
def Log.key (l : Log) : String × String := (l.Process, l.ID)

/-- A backend whose build succeeded with one output line and whose cluster is missing. -/
def noClusterClient : Client :=
  { exampleClient with
    DescribeServices := fun _ _ => .error (.awserr ErrCodeClusterNotFoundException "no cluster") }

/-- A backend whose project exists without any build. -/
def noBuildClient : Client :=
  { exampleClient with ListBuildsForProject := fun _ => .ok [] }

/-- A backend whose listing names a build for which the details lookup returns nothing. -/
def noDetailClient : Client :=
  { exampleClient with BatchGetBuilds := fun _ => .ok [] }

/-- A backend whose service reports an event whose message ends with a newline. -/
def newlineClient : Client :=
  { exampleClient with
    DescribeServices := fun _ _ =>
      .ok [⟨[⟨some "ev-1", some (Time.Unix 0 2000000), some "stopped\n"⟩]⟩] }

/-- A backend whose build printed the same line twice within one millisecond. -/
def duplicateClient : Client :=
  { exampleClient with
    GetLogEvents := fun _ _ => .ok [⟨some 1, some "ok\n"⟩, ⟨some 1, some "ok\n"⟩] }

/-- A backend whose build printed a line stamped 9223372036855 ms after the epoch, one
millisecond beyond what an `int64` count of nanoseconds can hold. -/
def farFutureClient : Client :=
  { exampleClient with
    GetLogEvents := fun _ _ => .ok [⟨some 9223372036855, some "late\n"⟩] }

/-- A backend whose build printed the same line twice, once without a timestamp and once
stamped 0 ms. -/
def nilTimestampClient : Client :=
  { exampleClient with
    GetLogEvents := fun _ _ => .ok [⟨none, some "boot\n"⟩, ⟨some 0, some "boot\n"⟩] }

/-! ## Auxiliary facts about the collectors -/

theorem foldl_snoc_eq_map {α β : Type} (f : α → β) (l : List α) (acc : List β) :
    l.foldl (fun logs x => logs ++ [f x]) acc = acc ++ l.map f := by
  induction l generalizing acc with
  | nil => simp
  | cons x xs ih => simp [ih]

theorem describeBuilderLogs_ok {c : Client} {appName : String} {logs : List Log}
    (h : (describeBuilderLogs c appName).out = .ret logs none) :
    ∃ buildID events, logs = events.map (builderLog buildID) ∧
      (events = [] ∨ ∃ g s, c.GetLogEvents g s = .ok events) := by
  unfold describeBuilderLogs at h
  dsimp only at h
  split at h
  · split at h <;> simp at h
  · simp at h
    exact ⟨none, [], by simp [h], Or.inl rfl⟩
  · split at h
    · simp at h
    · simp at h
      exact ⟨none, [], by simp [h], Or.inl rfl⟩
    · split at h
      · simp at h
      · split at h
        · simp at h
        · rename_i events hev
          simp only [Outcome.ret.injEq, and_true] at h
          simp only [foldl_snoc_eq_map, List.nil_append] at h
          exact ⟨_, events, h.symm, Or.inr ⟨_, _, hev⟩⟩

theorem describeBuilderLogs_calls (c : Client) (appName : String) :
    ∀ call ∈ (describeBuilderLogs c appName).calls, call.isBuild = true := by
  unfold describeBuilderLogs
  dsimp only
  split
  · split <;> simp [Call.isBuild]
  · simp [Call.isBuild]
  · split
    · simp [Call.isBuild]
    · simp [Call.isBuild]
    · split
      · simp [Call.isBuild]
      · split <;> simp [Call.isBuild]

theorem describeDeployerLogs_ok {c : Client} {appName : String} {logs : List Log}
    (h : (describeDeployerLogs c appName).out = .ret logs none) :
    ∃ events, logs = events.map deployerLog ∧
      (events = [] ∨ ∃ services service, c.DescribeServices appName [appName] = .ok services ∧
        service ∈ services ∧ events = service.Events) := by
  unfold describeDeployerLogs at h
  split at h
  · split at h <;> simp at h
  · simp at h
    exact ⟨[], by simp [h], Or.inl rfl⟩
  · rename_i service rest hsv
    simp only [Outcome.ret.injEq, and_true] at h
    refine ⟨service.Events, ?_, Or.inr ⟨_, service, hsv, by simp, rfl⟩⟩
    rw [← h, foldl_snoc_eq_map]; simp

theorem describeDeployerLogs_calls (c : Client) (appName : String) :
    (describeDeployerLogs c appName).calls = [Call.DescribeServices appName [appName]] := by
  unfold describeDeployerLogs
  split
  · split <;> rfl
  · rfl
  · rfl

/-! ## Auxiliary facts about sorting and about `DescribeLogs` -/

theorem lessByTimestamp_asymm (a b : Log) (h : lessByTimestamp a b = true) :
    lessByTimestamp b a = false := by
  simp only [lessByTimestamp, Time.Before, decide_eq_true_eq, decide_eq_false_iff_not] at *
  omega

theorem lessByTimestamp_negtrans (a b c : Log) (hab : lessByTimestamp a b = false)
    (hbc : lessByTimestamp b c = false) : lessByTimestamp a c = false := by
  simp only [lessByTimestamp, Time.Before, decide_eq_false_iff_not] at *
  omega

theorem SortSliceContract.perm {sortSlice : (Log → Log → Bool) → List Log → List Log}
    (hs : SortSliceContract sortSlice) (less : Log → Log → Bool) (logs : List Log) :
    (sortSlice less logs).Perm logs := (hs less logs).1

theorem SortSliceContract.sorted {sortSlice : (Log → Log → Bool) → List Log → List Log}
    (hs : SortSliceContract sortSlice) (logs : List Log) :
    (sortSlice lessByTimestamp logs).Pairwise
      (fun a b => a.Timestamp.unixNano ≤ b.Timestamp.unixNano) := by
  have h := (hs lessByTimestamp logs).2 lessByTimestamp_asymm lessByTimestamp_negtrans
  refine h.imp ?_
  intro a b hba
  simp only [lessByTimestamp, Time.Before, decide_eq_false_iff_not] at hba
  omega

theorem SortSliceContract.nil {sortSlice : (Log → Log → Bool) → List Log → List Log}
    (hs : SortSliceContract sortSlice) (less : Log → Log → Bool) : sortSlice less [] = [] :=
  List.Perm.eq_nil (hs.perm less [])

theorem insertionSortSlice_contract : SortSliceContract insertionSortSlice := by
  intro less logs
  refine ⟨List.perm_insertionSort _ logs, ?_⟩
  intro hasymm hneg
  haveI : IsTotal Log (fun a b => less b a = false) := ⟨fun a b => by
    cases hba : less b a
    · exact Or.inl rfl
    · exact Or.inr (hasymm b a hba)⟩
  haveI : IsTrans Log (fun a b => less b a = false) := ⟨fun a b c hab hbc => hneg c b a hbc hab⟩
  exact List.sorted_insertionSort (fun a b => less b a = false) logs

theorem DescribeLogs_builder_only {sortSlice : (Log → Log → Bool) → List Log → List Log}
    (hs : SortSliceContract sortSlice) (c : Client) (appName source : String)
    (hsrc : source = "" ∨ source = HerogateSource) :
    (DescribeLogs sortSlice c appName (some ⟨source, BuilderProcess⟩)).calls =
        (describeBuilderLogs c appName).calls ∧
      ∀ r err, (DescribeLogs sortSlice c appName (some ⟨source, BuilderProcess⟩)).out =
          .ret r err →
        ∃ bl, r.Perm bl ∧ (bl = [] ∨ (describeBuilderLogs c appName).out = .ret bl none) := by
  have hB : BuilderProcess ≠ "" := by decide
  simp only [DescribeLogs, hsrc, hB, if_true, if_false]
  split
  · rename_i bl hb
    refine ⟨rfl, ?_⟩
    intro r err h
    simp only [sortAndReturn, Outcome.ret.injEq] at h
    exact ⟨bl, h.1 ▸ hs.perm _ _, Or.inr hb⟩
  · refine ⟨rfl, ?_⟩
    intro r err h
    simp only [Outcome.ret.injEq] at h
    exact ⟨[], by simp [← h.1], Or.inl rfl⟩
  · rename_i stop hn1 hn2
    refine ⟨rfl, ?_⟩
    intro r err h
    dsimp only at h
    cases err with
    | none => exact absurd h (hn1 r)
    | some e => exact absurd h (hn2 r e)

theorem DescribeLogs_deployer_only {sortSlice : (Log → Log → Bool) → List Log → List Log}
    (hs : SortSliceContract sortSlice) (c : Client) (appName source : String)
    (hsrc : source = "" ∨ source = HerogateSource) :
    (DescribeLogs sortSlice c appName (some ⟨source, DeployerProcess⟩)).calls =
        (describeDeployerLogs c appName).calls ∧
      ∀ r err, (DescribeLogs sortSlice c appName (some ⟨source, DeployerProcess⟩)).out =
          .ret r err →
        ∃ dl, r.Perm dl ∧ (dl = [] ∨ (describeDeployerLogs c appName).out = .ret dl none) := by
  have hD : DeployerProcess ≠ "" := by decide
  have hDB : DeployerProcess ≠ BuilderProcess := by decide
  simp only [DescribeLogs, hsrc, hD, hDB, if_true, if_false]
  split
  · rename_i dl hd
    refine ⟨rfl, ?_⟩
    intro r err h
    simp only [sortAndReturn, Outcome.ret.injEq] at h
    exact ⟨dl, h.1 ▸ hs.perm _ _, Or.inr hd⟩
  · refine ⟨rfl, ?_⟩
    intro r err h
    simp only [Outcome.ret.injEq] at h
    exact ⟨[], by simp [← h.1], Or.inl rfl⟩
  · rename_i stop hn1 hn2
    refine ⟨rfl, ?_⟩
    intro r err h
    dsimp only at h
    cases err with
    | none => exact absurd h (hn1 r)
    | some e => exact absurd h (hn2 r e)


/-! ## Auxiliary facts about strings -/

theorem mem_newline_cutset (ch : Char) :
    ("\n" : String).data.contains ch = true ↔ ch = '\n' := by
  have h : ("\n" : String).data = ['\n'] := rfl
  rw [h]
  simp [eq_comm]

theorem TrimRight_newline (s : String) :
    (∃ k, s = TrimRight s "\n" ++ ⟨List.replicate k '\n'⟩) ∧
      endsWithNewline (TrimRight s "\n") = false := by
  constructor
  · refine ⟨(s.data.reverse.takeWhile (fun ch => ("\n" : String).data.contains ch)).length, ?_⟩
    apply String.ext
    simp only [TrimRight, String.data_append]
    have hsplit := List.takeWhile_append_dropWhile
      (fun ch => ("\n" : String).data.contains ch) s.data.reverse
    have hrep : (s.data.reverse.takeWhile (fun ch => ("\n" : String).data.contains ch)).reverse =
        List.replicate
          (s.data.reverse.takeWhile (fun ch => ("\n" : String).data.contains ch)).length '\n' := by
      rw [List.eq_replicate_iff]
      refine ⟨by simp, ?_⟩
      intro b hb
      rw [List.mem_reverse] at hb
      exact (mem_newline_cutset b).mp (List.mem_takeWhile_imp hb)
    rw [← hrep, ← List.reverse_append, hsplit, List.reverse_reverse]
  · simp only [endsWithNewline, TrimRight, List.getLast?_reverse]
    have h := List.head?_dropWhile_not (fun ch => ("\n" : String).data.contains ch)
      s.data.reverse
    cases hh : (s.data.reverse.dropWhile (fun ch => ("\n" : String).data.contains ch)).head? with
    | none => rfl
    | some x =>
      rw [hh] at h
      simp only at h
      have hx : x ≠ '\n' := by
        intro hx
        rw [(mem_newline_cutset x).mpr hx] at h
        exact Bool.noConfusion h
      simpa [Char.ofNat] using hx

theorem wrapInt64_millis (ms : Int) (hlo : -9223372036854 ≤ ms) (hhi : ms ≤ 9223372036854) :
    wrapInt64 (ms * 1000000) = ms * 1000000 := by
  unfold wrapInt64
  norm_num
  omega

/-- Outside the range of `wrapInt64_millis` the product wraps: 9223372036855 ms is not turned
into the instant that many milliseconds after the epoch. -/
theorem MillisecondsTimeValue_wraps :
    (MillisecondsTimeValue (some 9223372036855)).unixNano ≠ 9223372036855 * 1000000 := by
  decide

theorem describeBuilderLogs_fetch {c : Client} {appName : String} {buildID : Option String}
    {rest : List (Option String)} {build : Build} {builds : List Build}
    {location : LogsLocation} {events : List OutputLogEvent}
    (hlist : c.ListBuildsForProject appName = .ok (buildID :: rest))
    (hbatch : c.BatchGetBuilds [buildID] = .ok (build :: builds))
    (hloc : build.Logs = some location)
    (hfetch : c.GetLogEvents location.GroupName location.StreamName = .ok events) :
    describeBuilderLogs c appName =
      ⟨[Call.ListBuildsForProject appName, Call.BatchGetBuilds [buildID],
          Call.GetLogEvents location.GroupName location.StreamName],
        .ret (events.map (builderLog buildID)) none⟩ := by
  simp [describeBuilderLogs, hlist, hbatch, hloc, hfetch, foldl_snoc_eq_map]


theorem digitChar_value (k : Nat) (hk : k < 10) : (Nat.digitChar k).toNat - 48 = k := by
  interval_cases k <;> rfl

theorem digitChar_ne_dash (k : Nat) (hk : k < 10) : Nat.digitChar k ≠ '-' := by
  interval_cases k <;> decide

theorem toDigitsCore_append (fuel n : Nat) (ds : List Char) :
    Nat.toDigitsCore 10 fuel n ds = Nat.toDigitsCore 10 fuel n [] ++ ds := by
  induction fuel generalizing n ds with
  | zero => simp [Nat.toDigitsCore]
  | succ fuel ih =>
    simp only [Nat.toDigitsCore]
    split_ifs with h
    · simp
    · rw [ih (n / 10) (Nat.digitChar (n % 10) :: ds), ih (n / 10) [Nat.digitChar (n % 10)]]
      simp

theorem toDigitsCore_spec (fuel n : Nat) (h : n < fuel) :
    digitsValue (Nat.toDigitsCore 10 fuel n []) = n ∧
      Nat.toDigitsCore 10 fuel n [] ≠ [] ∧
      ∀ ch ∈ Nat.toDigitsCore 10 fuel n [], ch ≠ '-' := by
  induction fuel generalizing n with
  | zero => omega
  | succ fuel ih =>
    have hmod : n % 10 < 10 := Nat.mod_lt _ (by decide)
    simp only [Nat.toDigitsCore]
    split_ifs with h0
    · refine ⟨?_, by simp, ?_⟩
      · simp only [digitsValue, List.foldl_cons, List.foldl_nil, digitChar_value _ hmod]
        omega
      · intro ch hch
        simp only [List.mem_singleton] at hch
        subst hch
        exact digitChar_ne_dash _ hmod
    · have hlt : n / 10 < fuel := by omega
      obtain ⟨hv, hne, hd⟩ := ih (n / 10) hlt
      rw [toDigitsCore_append]
      refine ⟨?_, by simp [hne], ?_⟩
      · unfold digitsValue at hv ⊢
        rw [List.foldl_append, hv]
        simp only [List.foldl_cons, List.foldl_nil, digitChar_value _ hmod]
        omega
      · intro ch hch
        rcases List.mem_append.mp hch with hch | hch
        · exact hd ch hch
        · simp only [List.mem_singleton] at hch
          subst hch
          exact digitChar_ne_dash _ hmod

theorem toDigits_spec (n : Nat) :
    digitsValue (Nat.toDigits 10 n) = n ∧ Nat.toDigits 10 n ≠ [] ∧
      ∀ ch ∈ Nat.toDigits 10 n, ch ≠ '-' :=
  toDigitsCore_spec (n + 1) n (Nat.lt_succ_self n)

theorem toDigits_injective {a b : Nat} (h : Nat.toDigits 10 a = Nat.toDigits 10 b) : a = b := by
  rw [← (toDigits_spec a).1, ← (toDigits_spec b).1, h]

theorem separator_split {a : Char} (l1 l2 r1 r2 : List Char) (h1 : a ∉ l1) (h2 : a ∉ l2)
    (h : l1 ++ a :: r1 = l2 ++ a :: r2) : l1 = l2 ∧ r1 = r2 := by
  induction l1 generalizing l2 with
  | nil =>
    cases l2 with
    | nil => simpa using h
    | cons y ys =>
      simp only [List.nil_append, List.cons_append, List.cons.injEq] at h
      exact absurd (List.mem_cons_self a ys) (h.1 ▸ h2)
  | cons x xs ih =>
    cases l2 with
    | nil =>
      simp only [List.nil_append, List.cons_append, List.cons.injEq] at h
      exact absurd (List.mem_cons_self a xs) (h.1 ▸ h1)
    | cons y ys =>
      simp only [List.cons_append, List.cons.injEq] at h
      have hx : a ∉ xs := fun hm => h1 (List.mem_cons_of_mem _ hm)
      have hy : a ∉ ys := fun hm => h2 (List.mem_cons_of_mem _ hm)
      obtain ⟨e1, e2⟩ := ih ys hx hy h.2
      exact ⟨by rw [h.1, e1], e2⟩

theorem formatDecimal_data_ofNat (n : Nat) :
    (formatDecimal (Int.ofNat n)).data = Nat.toDigits 10 n := rfl

theorem formatDecimal_data_negSucc (n : Nat) :
    (formatDecimal (Int.negSucc n)).data = '-' :: Nat.toDigits 10 (n + 1) := rfl

theorem formatDecimal_separator {t1 t2 : Int} {m1 m2 : List Char}
    (h : (formatDecimal t1).data ++ '-' :: m1 = (formatDecimal t2).data ++ '-' :: m2) :
    t1 = t2 ∧ m1 = m2 := by
  have nodash : ∀ n, '-' ∉ Nat.toDigits 10 n := fun n hm => (toDigits_spec n).2.2 _ hm rfl
  have headne : ∀ n (r s : List Char), Nat.toDigits 10 n ++ r ≠ '-' :: s := by
    intro n r s heq
    have hne := (toDigits_spec n).2.1
    cases hd : Nat.toDigits 10 n with
    | nil => exact hne hd
    | cons x xs =>
      rw [hd] at heq
      simp only [List.cons_append, List.cons.injEq] at heq
      have hx : x ∈ Nat.toDigits 10 n := by rw [hd]; exact List.mem_cons_self x xs
      exact (toDigits_spec n).2.2 x hx heq.1
  cases t1 with
  | ofNat a =>
    cases t2 with
    | ofNat b =>
      rw [formatDecimal_data_ofNat, formatDecimal_data_ofNat] at h
      obtain ⟨e1, e2⟩ := separator_split _ _ _ _ (nodash a) (nodash b) h
      exact ⟨by rw [toDigits_injective e1], e2⟩
    | negSucc b =>
      rw [formatDecimal_data_ofNat, formatDecimal_data_negSucc] at h
      exact absurd h (headne a _ _)
  | negSucc a =>
    cases t2 with
    | ofNat b =>
      rw [formatDecimal_data_ofNat, formatDecimal_data_negSucc] at h
      exact absurd h.symm (headne b _ _)
    | negSucc b =>
      rw [formatDecimal_data_negSucc, formatDecimal_data_negSucc] at h
      simp only [List.cons_append, List.cons.injEq, true_and] at h
      obtain ⟨e1, e2⟩ := separator_split _ _ _ _ (nodash (a + 1)) (nodash (b + 1)) h
      have := toDigits_injective e1
      exact ⟨by rw [Nat.add_right_cancel this], e2⟩

theorem Sprintf_data (buildID : String) (timestamp : Int) (message : String) :
    (Sprintf buildID timestamp message).data =
      buildID.data ++ '-' :: ((formatDecimal timestamp).data ++ '-' :: message.data) := by
  simp only [Sprintf, String.data_append]
  simp

theorem Sprintf_inj {buildID : String} {ts1 ts2 : Int} {msg1 msg2 : String}
    (h : Sprintf buildID ts1 msg1 = Sprintf buildID ts2 msg2) : ts1 = ts2 ∧ msg1 = msg2 := by
  have hd := congrArg String.data h
  rw [Sprintf_data, Sprintf_data] at hd
  have hd2 := List.append_cancel_left hd
  simp only [List.cons.injEq, true_and] at hd2
  obtain ⟨e1, e2⟩ := formatDecimal_separator hd2
  exact ⟨e1, String.ext e2⟩

theorem builder_keys_nodup (buildID : Option String) (events : List OutputLogEvent)
    (h : (events.map (fun e => (e.Timestamp.getD 0, e.Message.getD ""))).Nodup) :
    ((events.map (builderLog buildID)).map Log.key).Nodup := by
  have hinj : Function.Injective (fun p : Int × String =>
      (BuilderProcess, Sprintf (StringValue buildID) p.1 p.2)) := by
    intro p q hpq
    simp only [Prod.mk.injEq, true_and] at hpq
    obtain ⟨e1, e2⟩ := Sprintf_inj hpq
    exact Prod.ext e1 e2
  have := h.map hinj
  simpa [List.map_map, Function.comp_def, Log.key, builderLog, Int64Value, StringValue]
    using this

theorem deployer_keys_nodup (events : List ServiceEvent)
    (h : (events.map (fun e => e.Id.getD "")).Nodup) :
    ((events.map deployerLog).map Log.key).Nodup := by
  have hinj : Function.Injective (fun id : String => (DeployerProcess, id)) := by
    intro p q hpq
    simpa using hpq
  have := h.map hinj
  simpa [List.map_map, Function.comp_def, Log.key, deployerLog, StringValue] using this

theorem describeBuilderLogs_fetched {c : Client} {appName : String} {logs : List Log}
    (h : (describeBuilderLogs c appName).out = .ret logs none) :
    logs = [] ∨ ∃ buildID events g s, logs = events.map (builderLog buildID) ∧
      Call.GetLogEvents g s ∈ (describeBuilderLogs c appName).calls ∧
      c.GetLogEvents g s = .ok events := by
  generalize hrun : describeBuilderLogs c appName = run at h ⊢
  unfold describeBuilderLogs at hrun
  dsimp only at hrun
  split at hrun
  · split at hrun <;> (subst hrun; simp at h)
  · subst hrun
    simp only [Outcome.ret.injEq, and_true] at h
    exact Or.inl h.symm
  · split at hrun
    · subst hrun; simp at h
    · subst hrun
      simp only [Outcome.ret.injEq, and_true] at h
      exact Or.inl h.symm
    · split at hrun
      · subst hrun; simp at h
      · split at hrun
        · subst hrun; simp at h
        · rename_i events hev
          subst hrun
          simp only [Outcome.ret.injEq, and_true, foldl_snoc_eq_map, List.nil_append] at h
          exact Or.inr ⟨_, events, _, _, h.symm, by simp, hev⟩

theorem describeDeployerLogs_read {c : Client} {appName : String} {logs : List Log}
    (h : (describeDeployerLogs c appName).out = .ret logs none) :
    logs = [] ∨ ∃ service rest, logs = service.Events.map deployerLog ∧
      c.DescribeServices appName [appName] = .ok (service :: rest) := by
  unfold describeDeployerLogs at h
  split at h
  · split at h <;> simp at h
  · simp only [Outcome.ret.injEq, and_true] at h
    exact Or.inl h.symm
  · rename_i service rest hsv
    simp only [Outcome.ret.injEq, and_true, foldl_snoc_eq_map, List.nil_append] at h
    exact Or.inr ⟨service, rest, h.symm, hsv⟩

theorem DescribeLogs_records {sortSlice : (Log → Log → Bool) → List Log → List Log}
    (hs : SortSliceContract sortSlice) {c : Client} {appName : String}
    {options : Option DescribeLogsOptions} {r : List Log}
    (h : (DescribeLogs sortSlice c appName options).out = .ret r none) :
    ∃ bl dl, r.Perm (bl ++ dl) ∧
      (bl = [] ∨ ∃ buildID events g s, bl = events.map (builderLog buildID) ∧
        Call.GetLogEvents g s ∈ (DescribeLogs sortSlice c appName options).calls ∧
        c.GetLogEvents g s = .ok events) ∧
      (dl = [] ∨ ∃ cluster names service rest, dl = service.Events.map deployerLog ∧
        Call.DescribeServices cluster names ∈
          (DescribeLogs sortSlice c appName options).calls ∧
        c.DescribeServices cluster names = .ok (service :: rest)) := by
  have builderPart : ∀ (bl : List Log) (calls : List Call),
      (describeBuilderLogs c appName).out = .ret bl none →
      (∀ call ∈ (describeBuilderLogs c appName).calls, call ∈ calls) →
      (bl = [] ∨ ∃ buildID events g s, bl = events.map (builderLog buildID) ∧
        Call.GetLogEvents g s ∈ calls ∧ c.GetLogEvents g s = .ok events) := by
    intro bl calls hb hsub
    rcases describeBuilderLogs_fetched hb with h0 | ⟨buildID, events, g, s, hmap, hcall, hev⟩
    · exact Or.inl h0
    · exact Or.inr ⟨buildID, events, g, s, hmap, hsub _ hcall, hev⟩
  have deployerPart : ∀ (dl : List Log) (calls : List Call),
      (describeDeployerLogs c appName).out = .ret dl none →
      (∀ call ∈ (describeDeployerLogs c appName).calls, call ∈ calls) →
      (dl = [] ∨ ∃ cluster names service rest, dl = service.Events.map deployerLog ∧
        Call.DescribeServices cluster names ∈ calls ∧
        c.DescribeServices cluster names = .ok (service :: rest)) := by
    intro dl calls hd hsub
    rcases describeDeployerLogs_read hd with h0 | ⟨service, rest, hmap, hsv⟩
    · exact Or.inl h0
    · refine Or.inr ⟨appName, [appName], service, rest, hmap, hsub _ ?_, hsv⟩
      rw [describeDeployerLogs_calls]
      exact List.mem_singleton_self _
  generalize hrun : DescribeLogs sortSlice c appName options = run at h ⊢
  unfold DescribeLogs at hrun
  split at hrun
  · subst hrun
    simp only [Outcome.ret.injEq, and_true] at h
    exact ⟨[], [], by simp [← h], Or.inl rfl, Or.inl rfl⟩
  · dsimp only at hrun
    split_ifs at hrun
    · split at hrun
      · rename_i bl hb
        split at hrun
        · rename_i dl hd
          subst hrun
          simp only [sortAndReturn, Outcome.ret.injEq, and_true] at h
          exact ⟨bl, dl, h ▸ hs.perm _ _,
            builderPart bl _ hb (fun call hc => List.mem_append_left _ hc),
            deployerPart dl _ hd (fun call hc => List.mem_append_right _ hc)⟩
        · subst hrun; simp at h
        · rename_i hn1 hn2
          subst hrun
          exact absurd h (hn1 r)
      · subst hrun; simp at h
      · rename_i hn1 hn2
        subst hrun
        exact absurd h (hn1 r)
    · split at hrun
      · rename_i bl hb
        subst hrun
        simp only [sortAndReturn, Outcome.ret.injEq, and_true] at h
        exact ⟨bl, [], by simpa [← h] using hs.perm _ _,
          builderPart bl _ hb (fun call hc => hc), Or.inl rfl⟩
      · subst hrun; simp at h
      · rename_i hn1 hn2
        subst hrun
        exact absurd h (hn1 r)
    · split at hrun
      · rename_i dl hd
        subst hrun
        simp only [sortAndReturn, Outcome.ret.injEq, and_true] at h
        exact ⟨[], dl, by simpa [← h] using hs.perm _ _, Or.inl rfl,
          deployerPart dl _ hd (fun call hc => hc)⟩
      · subst hrun; simp at h
      · rename_i hn1 hn2
        subst hrun
        exact absurd h (hn1 r)
    · subst hrun
      simp only [sortAndReturn, hs.nil, Outcome.ret.injEq, and_true] at h
      exact ⟨[], [], by simp [← h], Or.inl rfl, Or.inl rfl⟩
    · subst hrun
      simp only [sortAndReturn, hs.nil, Outcome.ret.injEq, and_true] at h
      exact ⟨[], [], by simp [← h], Or.inl rfl, Or.inl rfl⟩

theorem Call.isDeploy_eq_false_of_isBuild {call : Call} (h : call.isBuild = true) :
    call.isDeploy = false := by
  cases call <;> simp_all [Call.isBuild, Call.isDeploy]

/-! ## The claims -/

/-- C1: when both collectors return without error, `DescribeLogs` with a selector whose source
and process are empty returns a nil error and a sequence that is sorted by non-decreasing
timestamp, whose length is the sum of the two collectors' lengths and that is a permutation
of the builder records followed by the deployer records (the collectors' outputs need not
even be sorted). In particular two builder records at `t1 < t2` and one deployer record at
`t3` with `t1 < t3 < t2` come back as builder at `t1`, deployer at `t3`, builder at `t2`. -/
theorem C1_sorted_merge (sortSlice : (Log → Log → Bool) → List Log → List Log)
    (hs : SortSliceContract sortSlice) (c : Client) (appName : String) (bl dl : List Log)
    (hb : (describeBuilderLogs c appName).out = .ret bl none)
    (hd : (describeDeployerLogs c appName).out = .ret dl none) :
    ∃ r, (DescribeLogs sortSlice c appName (some ⟨"", ""⟩)).out = .ret r none ∧
      r.Pairwise (fun a b => a.Timestamp.unixNano ≤ b.Timestamp.unixNano) ∧
      r.length = bl.length + dl.length ∧
      r.Perm (bl ++ dl) ∧
      (∀ b1 b2 d3, bl = [b1, b2] → dl = [d3] →
        b1.Timestamp.Before d3.Timestamp = true → d3.Timestamp.Before b2.Timestamp = true →
        r = [b1, d3, b2]) := by
  refine ⟨sortSlice lessByTimestamp (bl ++ dl), ?_, hs.sorted _, ?_, hs.perm _ _, ?_⟩
  · simp [DescribeLogs, hb, hd, sortAndReturn]
  · rw [(hs.perm _ _).length_eq, List.length_append]
  · intro b1 b2 d3 hbl hdl h13 h32
    subst hbl hdl
    simp only [Time.Before, decide_eq_true_eq] at h13 h32
    have hperm : (sortSlice lessByTimestamp ([b1, b2] ++ [d3])).Perm [b1, d3, b2] :=
      (hs.perm _ _).trans (List.Perm.cons b1 (List.Perm.swap d3 b2 []))
    have hne : (sortSlice lessByTimestamp ([b1, b2] ++ [d3])).Pairwise
        (fun a b => a.Timestamp.unixNano ≠ b.Timestamp.unixNano) := by
      refine (hperm.pairwise_iff (fun {a b} h => Ne.symm h)).mpr ?_
      simp only [List.pairwise_cons, List.mem_cons, List.mem_singleton, forall_eq_or_imp,
        forall_eq, List.not_mem_nil, false_implies, implies_true, List.Pairwise.nil, and_true]
      omega
    have hlt : (sortSlice lessByTimestamp ([b1, b2] ++ [d3])).Sorted
        (fun a b => a.Timestamp.unixNano < b.Timestamp.unixNano) :=
      ((hs.sorted _).and hne).imp (fun h => lt_of_le_of_ne h.1 h.2)
    have hgoal : [b1, d3, b2].Sorted
        (fun a b => a.Timestamp.unixNano < b.Timestamp.unixNano) := by
      simp only [List.Sorted, List.pairwise_cons, List.mem_cons, List.mem_singleton,
        forall_eq_or_imp, forall_eq, List.not_mem_nil, false_implies, implies_true,
        List.Pairwise.nil, and_true]
      omega
    haveI : IsAntisymm Log (fun a b => a.Timestamp.unixNano < b.Timestamp.unixNano) :=
      ⟨fun a b h1 h2 => absurd h1 (not_lt.mpr (le_of_lt h2))⟩
    exact List.eq_of_perm_of_sorted hperm hlt hgoal

/-- C1 (witness): in the example scenario (builder events at 1 ms and 3 ms, a deployer event
at 2 ms) the theorem gives the merged sequence builder, deployer, builder. -/
theorem C1_sorted_merge_witness :
    (DescribeLogs insertionSortSlice exampleClient "myapp" (some ⟨"", ""⟩)).out =
      .ret [builderLog (some "myapp:1") ⟨some 1, some "start\n"⟩,
        deployerLog ⟨some "ev-1", some (Time.Unix 0 2000000), some "steady state"⟩,
        builderLog (some "myapp:1") ⟨some 3, some "done\n\n"⟩] none := by
  obtain ⟨r, hout, _, _, _, hex⟩ := C1_sorted_merge insertionSortSlice
    insertionSortSlice_contract exampleClient "myapp"
    [builderLog (some "myapp:1") ⟨some 1, some "start\n"⟩,
      builderLog (some "myapp:1") ⟨some 3, some "done\n\n"⟩]
    [deployerLog ⟨some "ev-1", some (Time.Unix 0 2000000), some "steady state"⟩]
    (by decide) (by decide)
  rw [← hex _ _ _ rfl rfl (by decide) (by decide)]
  exact hout

/-- C2: for a non-nil selector, when a collector that `DescribeLogs` invokes returns the error
`err` (the build collector for an empty or builder process; the deployment collector for a
deployer process, or for an empty process after the build collector returned without error,
whatever records it returned; in particular the build collector when the listing fails with
`ResourceNotFoundException`), `DescribeLogs` returns the empty sequence and that very
error. -/
theorem C2_error_propagation (sortSlice : (Log → Log → Bool) → List Log → List Log)
    (c : Client) (appName : String) (options : DescribeLogsOptions) (err : GoError)
    (hsrc : options.Source = "" ∨ options.Source = HerogateSource)
    (hfail :
      ((options.Process = "" ∨ options.Process = BuilderProcess) ∧
        ∃ logs, (describeBuilderLogs c appName).out = .ret logs (some err)) ∨
      ((options.Process = DeployerProcess ∨
          (options.Process = "" ∧ ∃ bl, (describeBuilderLogs c appName).out = .ret bl none)) ∧
        ∃ logs, (describeDeployerLogs c appName).out = .ret logs (some err)) ∨
      ((options.Process = "" ∨ options.Process = BuilderProcess) ∧
        ∃ message, err = .awserr ErrCodeResourceNotFoundException message ∧
          c.ListBuildsForProject appName = .error err)) :
    (DescribeLogs sortSlice c appName (some options)).out = .ret [] (some err) := by
  have hB : "" ≠ BuilderProcess := by decide
  have hD : "" ≠ DeployerProcess := by decide
  have hBD : DeployerProcess ≠ BuilderProcess := by decide
  have builderCase : ∀ logs, (options.Process = "" ∨ options.Process = BuilderProcess) →
      (describeBuilderLogs c appName).out = .ret logs (some err) →
      (DescribeLogs sortSlice c appName (some options)).out = .ret [] (some err) := by
    intro logs hp hb
    rcases hp with hp | hp
    · simp [DescribeLogs, hsrc, hp, hb]
    · simp [DescribeLogs, hsrc, hp, hb, hB.symm]
  rcases hfail with ⟨hp, logs, hb⟩ | ⟨hp, logs, hd⟩ | ⟨hp, message, hmsg, hl⟩
  · exact builderCase logs hp hb
  · rcases hp with hp | ⟨hp, bl, hb⟩
    · simp [DescribeLogs, hsrc, hp, hd, hD.symm, hBD]
    · simp [DescribeLogs, hsrc, hp, hb, hd]
  · refine builderCase [] hp ?_
    subst hmsg
    simp [describeBuilderLogs, hl, GoError.hasCode]

/-- C2 (witness): the build collector returns two records, the deployment collector then fails
with cluster-not-found, and `DescribeLogs` returns no record and that error. -/
theorem C2_error_propagation_witness :
    (DescribeLogs insertionSortSlice noClusterClient "myapp" (some ⟨"", ""⟩)).out =
      .ret [] (some (.awserr ErrCodeClusterNotFoundException "no cluster")) :=
  C2_error_propagation insertionSortSlice noClusterClient "myapp" ⟨"", ""⟩
    (.awserr ErrCodeClusterNotFoundException "no cluster") (Or.inl rfl)
    (Or.inr (Or.inl ⟨Or.inr ⟨rfl,
      [builderLog (some "myapp:1") ⟨some 1, some "start\n"⟩,
        builderLog (some "myapp:1") ⟨some 3, some "done\n\n"⟩], by decide⟩, [], by decide⟩))

/-- C3: with a nil selector `DescribeLogs` returns the empty sequence and a nil error, and it
sends no request to any backend, whatever the backends (and `sort.Slice`) would answer. -/
theorem C3_nil_selector (sortSlice : (Log → Log → Bool) → List Log → List Log)
    (c : Client) (appName : String) :
    DescribeLogs sortSlice c appName none = ⟨[], .ret [] none⟩ := rfl

/-- C4: a selector whose source is neither empty nor the native source makes `DescribeLogs`
return the empty sequence and a nil error without any backend request, whatever its process;
conversely a backend request is made only if the source is empty or native. -/
theorem C4_unrecognized_source (sortSlice : (Log → Log → Bool) → List Log → List Log)
    (hs : SortSliceContract sortSlice) (c : Client) (appName : String)
    (options : DescribeLogsOptions) :
    (options.Source ≠ "" → options.Source ≠ HerogateSource →
      DescribeLogs sortSlice c appName (some options) = ⟨[], .ret [] none⟩) ∧
    ((DescribeLogs sortSlice c appName (some options)).calls ≠ [] →
      options.Source = "" ∨ options.Source = HerogateSource) := by
  have key : options.Source ≠ "" → options.Source ≠ HerogateSource →
      DescribeLogs sortSlice c appName (some options) = ⟨[], .ret [] none⟩ := by
    intro h1 h2
    simp [DescribeLogs, h1, h2, sortAndReturn, hs.nil]
  refine ⟨key, ?_⟩
  intro hcalls
  by_contra hsrc
  push_neg at hsrc
  rw [key hsrc.1 hsrc.2] at hcalls
  exact hcalls rfl

/-- C4 (witness): the source `papertrail` yields the empty result without any request. -/
theorem C4_unrecognized_source_witness :
    DescribeLogs insertionSortSlice exampleClient "myapp" (some ⟨"papertrail", "builder"⟩) =
      ⟨[], .ret [] none⟩ :=
  (C4_unrecognized_source insertionSortSlice insertionSortSlice_contract exampleClient "myapp"
    ⟨"papertrail", "builder"⟩).1 (by decide) (by decide)

/-- C5: with a source that is empty or native, a selector with process `builder` makes
`DescribeLogs` return only records whose process is `builder` and send no request to the
deployment backend; a selector with process `deployer` makes it return only records whose
process is `deployer` and send no request to the build backend. -/
theorem C5_process_filter (sortSlice : (Log → Log → Bool) → List Log → List Log)
    (hs : SortSliceContract sortSlice) (c : Client) (appName source : String)
    (hsrc : source = "" ∨ source = HerogateSource) :
    ((∀ r err, (DescribeLogs sortSlice c appName (some ⟨source, BuilderProcess⟩)).out =
          .ret r err → ∀ l ∈ r, l.Process = BuilderProcess) ∧
      (∀ call ∈ (DescribeLogs sortSlice c appName (some ⟨source, BuilderProcess⟩)).calls,
        call.isDeploy = false)) ∧
    ((∀ r err, (DescribeLogs sortSlice c appName (some ⟨source, DeployerProcess⟩)).out =
          .ret r err → ∀ l ∈ r, l.Process = DeployerProcess) ∧
      (∀ call ∈ (DescribeLogs sortSlice c appName (some ⟨source, DeployerProcess⟩)).calls,
        call.isBuild = false)) := by
  obtain ⟨hbc, hbr⟩ := DescribeLogs_builder_only hs c appName source hsrc
  obtain ⟨hdc, hdr⟩ := DescribeLogs_deployer_only hs c appName source hsrc
  refine ⟨⟨?_, ?_⟩, ⟨?_, ?_⟩⟩
  · intro r err h l hl
    obtain ⟨bl, hperm, hbl⟩ := hbr r err h
    have hmem : l ∈ bl := hperm.mem_iff.mp hl
    rcases hbl with hbl | hbl
    · subst hbl; simp at hmem
    · obtain ⟨buildID, events, hmap, _⟩ := describeBuilderLogs_ok hbl
      subst hmap
      obtain ⟨e, _, rfl⟩ := List.mem_map.mp hmem
      rfl
  · intro call hcall
    rw [hbc] at hcall
    exact Call.isDeploy_eq_false_of_isBuild (describeBuilderLogs_calls c appName call hcall)
  · intro r err h l hl
    obtain ⟨dl, hperm, hdl⟩ := hdr r err h
    have hmem : l ∈ dl := hperm.mem_iff.mp hl
    rcases hdl with hdl | hdl
    · subst hdl; simp at hmem
    · obtain ⟨events, hmap, _⟩ := describeDeployerLogs_ok hdl
      subst hmap
      obtain ⟨e, _, rfl⟩ := List.mem_map.mp hmem
      rfl
  · intro call hcall
    rw [hdc, describeDeployerLogs_calls] at hcall
    simp only [List.mem_singleton] at hcall
    subst hcall
    rfl

/-- C5 (witness): in the example scenario the builder selector returns builder records after
build requests only, and the deployer selector deployer records after an ECS request only. -/
theorem C5_process_filter_witness :
    ("" = "" ∨ "" = HerogateSource) ∧
      (builderLog (some "myapp:1") ⟨some 1, some "start\n"⟩).Process = BuilderProcess ∧
      (Call.ListBuildsForProject "myapp").isDeploy = false ∧
      (deployerLog ⟨some "ev-1", some (Time.Unix 0 2000000), some "steady state"⟩).Process =
        DeployerProcess ∧
      (Call.DescribeServices "myapp" ["myapp"]).isBuild = false :=
  have h := C5_process_filter insertionSortSlice insertionSortSlice_contract exampleClient
    "myapp" "" (Or.inl rfl)
  ⟨Or.inl rfl,
    h.1.1 [builderLog (some "myapp:1") ⟨some 1, some "start\n"⟩,
        builderLog (some "myapp:1") ⟨some 3, some "done\n\n"⟩] none (by decide) _
      (List.mem_cons_self _ _),
    h.1.2 _ (by decide),
    h.2.1 [deployerLog ⟨some "ev-1", some (Time.Unix 0 2000000), some "steady state"⟩] none
      (by decide) _ (List.mem_cons_self _ _),
    h.2.2 _ (by decide)⟩

/-- C6 (counterexample): a build event stamped 9223372036855 ms meets every condition of the
claim, yet its record carries the instant -9223372036854551616 ns, which is not
9223372036855 ms after the epoch. -/
theorem C6_counterexample :
    farFutureClient.ListBuildsForProject "myapp" = .ok [some "myapp:1", some "myapp:0"] ∧
      farFutureClient.BatchGetBuilds [some "myapp:1"] =
        .ok [⟨some ⟨some "group", some "stream"⟩⟩] ∧
      farFutureClient.GetLogEvents (some "group") (some "stream") =
        .ok [⟨some 9223372036855, some "late\n"⟩] ∧
      (describeBuilderLogs farFutureClient "myapp").out =
        .ret [⟨"myapp:1-9223372036855-late\n", ⟨-9223372036854551616⟩, HerogateSource,
          BuilderProcess, "late"⟩] none ∧
      (-9223372036854551616 : Int) ≠ 9223372036855 * 1000000 := by
  refine ⟨rfl, rfl, rfl, ?_, ?_⟩ <;> decide

/-- C6 (amended): when the build listing returns the identifiers `buildID :: rest`, the details
lookup for `buildID` returns at least one build, the first build has a log location, and the
log events fetched from its group and stream are `events`, `describeBuilderLogs` returns a nil error and
exactly one record per event, in the order of the events. The record at position `i` has
* the id made of the first listed identifier, the decimal millisecond timestamp and the
  message of event `i` joined by `-` (a nil identifier or message read as the empty string, a
  nil timestamp as 0);
* as timestamp the instant that many milliseconds after the epoch, provided the timestamp of
  event `i` is present and within 9223372036854 ms of the epoch; for every present timestamp
  the nanosecond count is `ms * 1000000` wrapped to an `int64`, and for a nil timestamp it is
  that of `time.Time{}`;
* the native source and the builder process;
* the message of event `i` with all its trailing newline characters removed. -/
theorem C6_builder_records (c : Client) (appName : String) (buildID : Option String)
    (rest : List (Option String)) (build : Build) (builds : List Build)
    (location : LogsLocation) (events : List OutputLogEvent)
    (hlist : c.ListBuildsForProject appName = .ok (buildID :: rest))
    (hbatch : c.BatchGetBuilds [buildID] = .ok (build :: builds))
    (hloc : build.Logs = some location)
    (hfetch : c.GetLogEvents location.GroupName location.StreamName = .ok events) :
    ∃ logs, (describeBuilderLogs c appName).out = .ret logs none ∧
      logs.length = events.length ∧
      ∀ (i : Nat) (hi : i < events.length) (hl : i < logs.length),
        logs[i].ID = buildID.getD "" ++ "-" ++ (events[i].Timestamp.getD 0).repr ++ "-" ++
            events[i].Message.getD "" ∧
        (∀ ms, events[i].Timestamp = some ms → -9223372036854 ≤ ms → ms ≤ 9223372036854 →
          logs[i].Timestamp.unixNano = ms * 1000000) ∧
        (∀ ms, events[i].Timestamp = some ms →
          logs[i].Timestamp.unixNano = (ms * 1000000 + 2 ^ 63) % 2 ^ 64 - 2 ^ 63) ∧
        (events[i].Timestamp = none →
          logs[i].Timestamp.unixNano = -62135596800 * 1000000000) ∧
        logs[i].Source = HerogateSource ∧
        logs[i].Process = BuilderProcess ∧
        (∃ k, events[i].Message.getD "" = logs[i].Message ++ ⟨List.replicate k '\n'⟩) ∧
        endsWithNewline logs[i].Message = false := by
  refine ⟨events.map (builderLog buildID), ?_, by simp, ?_⟩
  · rw [describeBuilderLogs_fetch hlist hbatch hloc hfetch]
  · intro i hi hl
    rw [List.getElem_map]
    refine ⟨rfl, ?_, ?_, ?_, rfl, rfl, ?_, ?_⟩
    · intro ms hms hlo hhi
      simp only [builderLog, hms, MillisecondsTimeValue, Time.UTC, Time.Unix,
        wrapInt64_millis ms hlo hhi]
      omega
    · intro ms hms
      simp only [builderLog, hms, MillisecondsTimeValue, Time.UTC, Time.Unix, wrapInt64]
      omega
    · intro hnone
      simp only [builderLog, hnone, MillisecondsTimeValue, Time.UTC, Time.zero, Time.Unix]
      omega
    · exact (TrimRight_newline (StringValue events[i].Message)).1
    · exact (TrimRight_newline (StringValue events[i].Message)).2

/-- C6 (witness): in the example scenario the record of the second event has the id
`myapp:1-3-done` followed by two newlines and the instant 3000000 ns. -/
theorem C6_builder_records_witness :
    ∃ logs : List Log, (describeBuilderLogs exampleClient "myapp").out = .ret logs none ∧
      logs.length = 2 ∧
      ∃ h : 1 < logs.length, logs[1].ID = "myapp:1-3-done\n\n" ∧
        logs[1].Timestamp.unixNano = 3000000 := by
  obtain ⟨logs, hout, hlen, hrec⟩ := C6_builder_records exampleClient "myapp" (some "myapp:1")
    [some "myapp:0"] ⟨some ⟨some "group", some "stream"⟩⟩ [] ⟨some "group", some "stream"⟩
    [⟨some 1, some "start\n"⟩, ⟨some 3, some "done\n\n"⟩] rfl rfl rfl rfl
  have h1 : 1 < logs.length := by rw [hlen]; decide
  obtain ⟨hid, hts, _⟩ := hrec 1 (by decide) h1
  exact ⟨logs, hout, hlen, h1, hid.trans (by decide),
    (hts 3 rfl (by decide) (by decide)).trans (by decide)⟩


/-- C7: when the build listing succeeds with no identifier, `describeBuilderLogs` returns the
empty sequence and a nil error after that single request; when the listing is non-empty but
the details lookup returns no build, it returns the empty sequence and a nil error after the
listing and the lookup only, without fetching log events. -/
theorem C7_empty_but_present (c : Client) (appName : String) :
    (c.ListBuildsForProject appName = .ok [] →
      describeBuilderLogs c appName =
        ⟨[Call.ListBuildsForProject appName], .ret [] none⟩) ∧
    (∀ buildID rest, c.ListBuildsForProject appName = .ok (buildID :: rest) →
      c.BatchGetBuilds [buildID] = .ok [] →
      describeBuilderLogs c appName =
        ⟨[Call.ListBuildsForProject appName, Call.BatchGetBuilds [buildID]], .ret [] none⟩) := by
  constructor
  · intro h
    simp [describeBuilderLogs, h]
  · intro buildID rest h1 h2
    simp [describeBuilderLogs, h1, h2]

/-- C7 (witness): a project without builds, and a listed build without details. -/
theorem C7_empty_but_present_witness :
    describeBuilderLogs noBuildClient "myapp" =
        ⟨[Call.ListBuildsForProject "myapp"], .ret [] none⟩ ∧
      describeBuilderLogs noDetailClient "myapp" =
        ⟨[Call.ListBuildsForProject "myapp", Call.BatchGetBuilds [some "myapp:1"]],
          .ret [] none⟩ :=
  ⟨(C7_empty_but_present noBuildClient "myapp").1 rfl,
    (C7_empty_but_present noDetailClient "myapp").2 (some "myapp:1") [some "myapp:0"] rfl rfl⟩

/-- C8 (counterexample): with a deployment event whose message is `stopped` followed by a
newline, `DescribeLogs` succeeds and returns a record whose message ends with a newline. -/
theorem C8_counterexample :
    ∃ r, (DescribeLogs insertionSortSlice newlineClient "myapp" (some ⟨"", "deployer"⟩)).out =
        .ret r none ∧ ∃ l ∈ r, endsWithNewline l.Message = true :=
  ⟨[deployerLog ⟨some "ev-1", some (Time.Unix 0 2000000), some "stopped\n"⟩], by decide,
    _, List.mem_cons_self _ _, by decide⟩

/-- C8 (amended): in the sequence returned by a successful `DescribeLogs` every record is a
builder record or a deployer record; no builder record has a message ending with a newline
character; every deployer record has, unchanged, the message of an event of the first
service in the response to a `DescribeServices` request that this call made (the empty
string for a nil message). Hence no returned message ends with a newline character,
provided no event of that service has a message ending with one. -/
theorem C8_no_trailing_newline (sortSlice : (Log → Log → Bool) → List Log → List Log)
    (hs : SortSliceContract sortSlice) (c : Client) (appName : String)
    (options : Option DescribeLogsOptions) (r : List Log)
    (h : (DescribeLogs sortSlice c appName options).out = .ret r none) :
    (∀ l ∈ r, l.Process = BuilderProcess ∨ l.Process = DeployerProcess) ∧
    (∀ l ∈ r, l.Process = BuilderProcess → endsWithNewline l.Message = false) ∧
    (∀ l ∈ r, l.Process = DeployerProcess →
      ∃ cluster names service rest event,
        Call.DescribeServices cluster names ∈
          (DescribeLogs sortSlice c appName options).calls ∧
        c.DescribeServices cluster names = .ok (service :: rest) ∧
        event ∈ service.Events ∧ l.Message = event.Message.getD "") ∧
    ((∀ cluster names service rest event text,
        Call.DescribeServices cluster names ∈
          (DescribeLogs sortSlice c appName options).calls →
        c.DescribeServices cluster names = .ok (service :: rest) →
        event ∈ service.Events → event.Message = some text →
        endsWithNewline text = false) →
      ∀ l ∈ r, endsWithNewline l.Message = false) := by
  obtain ⟨bl, dl, hperm, hbl, hdl⟩ := DescribeLogs_records hs h
  have hB : ∀ l ∈ bl, l.Process = BuilderProcess ∧ endsWithNewline l.Message = false := by
    intro l hl
    rcases hbl with hbl | ⟨buildID, events, g, s, hmap, _, _⟩
    · subst hbl; simp at hl
    · subst hmap
      obtain ⟨e, _, rfl⟩ := List.mem_map.mp hl
      exact ⟨rfl, (TrimRight_newline _).2⟩
  have hD : ∀ l ∈ dl, l.Process = DeployerProcess ∧
      ∃ cluster names service rest event,
        Call.DescribeServices cluster names ∈
          (DescribeLogs sortSlice c appName options).calls ∧
        c.DescribeServices cluster names = .ok (service :: rest) ∧
        event ∈ service.Events ∧ l.Message = event.Message.getD "" := by
    intro l hl
    rcases hdl with hdl | ⟨cluster, names, service, rest, hmap, hcall, hsv⟩
    · subst hdl; simp at hl
    · subst hmap
      obtain ⟨e, he, rfl⟩ := List.mem_map.mp hl
      exact ⟨rfl, cluster, names, service, rest, e, hcall, hsv, he, rfl⟩
  have hsplit : ∀ l ∈ r, l ∈ bl ∨ l ∈ dl := fun l hl =>
    List.mem_append.mp (hperm.mem_iff.mp hl)
  have hne : BuilderProcess ≠ DeployerProcess := by decide
  refine ⟨?_, ?_, ?_, ?_⟩
  · intro l hl
    rcases hsplit l hl with hm | hm
    · exact Or.inl (hB l hm).1
    · exact Or.inr (hD l hm).1
  · intro l hl hp
    rcases hsplit l hl with hm | hm
    · exact (hB l hm).2
    · exact absurd ((hD l hm).1.symm.trans hp).symm hne
  · intro l hl hp
    rcases hsplit l hl with hm | hm
    · exact absurd ((hB l hm).1.symm.trans hp) hne
    · exact (hD l hm).2
  · intro hdeploy l hl
    rcases hsplit l hl with hm | hm
    · exact (hB l hm).2
    · obtain ⟨_, cluster, names, service, rest, e, hcall, hsv, he, hmsg⟩ := hD l hm
      rw [hmsg]
      cases hopt : e.Message with
      | none => decide
      | some text => exact hdeploy cluster names service rest e text hcall hsv he hopt

/-- C8 (witness): in the example scenario the deployer record carries the message
`steady state` of the service event, and no returned message ends with a newline. -/
theorem C8_no_trailing_newline_witness :
    (∃ event : ServiceEvent, event.Message = some "steady state" ∧
        (deployerLog ⟨some "ev-1", some (Time.Unix 0 2000000), some "steady state"⟩).Message =
          event.Message.getD "") ∧
      endsWithNewline (builderLog (some "myapp:1") ⟨some 3, some "done\n\n"⟩).Message =
        false := by
  have hthm := C8_no_trailing_newline insertionSortSlice insertionSortSlice_contract
    exampleClient "myapp" (some ⟨"", ""⟩)
    [builderLog (some "myapp:1") ⟨some 1, some "start\n"⟩,
      deployerLog ⟨some "ev-1", some (Time.Unix 0 2000000), some "steady state"⟩,
      builderLog (some "myapp:1") ⟨some 3, some "done\n\n"⟩]
    (by decide)
  constructor
  · obtain ⟨cluster, names, service, rest, event, _, hsv, he, hmsg⟩ :=
      hthm.2.2.1 (deployerLog ⟨some "ev-1", some (Time.Unix 0 2000000), some "steady state"⟩)
        (by decide) rfl
    injection hsv with hsv
    injection hsv with h1 h2
    subst h1
    simp only [List.mem_singleton] at he
    subst he
    exact ⟨_, rfl, hmsg⟩
  · refine hthm.2.2.2 ?_ _ (by decide)
    intro cluster names service rest event text _ hsv he hmsg
    injection hsv with hsv
    injection hsv with h1 h2
    subst h1
    simp only [List.mem_singleton] at he
    subst he
    injection hmsg with hmsg
    subst hmsg
    decide

/-- C9 (counterexample): when the build printed the same line twice within one millisecond,
`DescribeLogs` succeeds and returns two builder records with the same id. -/
theorem C9_counterexample :
    ∃ r, (DescribeLogs insertionSortSlice duplicateClient "myapp"
        (some ⟨"", "builder"⟩)).out = .ret r none ∧ ¬ UniqueIDsPerProcess r :=
  ⟨[builderLog (some "myapp:1") ⟨some 1, some "ok\n"⟩,
      builderLog (some "myapp:1") ⟨some 1, some "ok\n"⟩], by decide,
    fun h => h 0 1 (by decide) (by decide) (by decide) rfl rfl⟩

/-- C9 (amended): any two records at different positions of the sequence returned by a
successful `DescribeLogs` that have the same process have different ids, provided that the
build log events fetched by this call are pairwise distinct in (timestamp, message) and that
the events of the first service in the response to the `DescribeServices` request made by
this call have pairwise distinct ids; in both provisos a nil timestamp counts as 0 and a nil
message or id as the empty string. -/
theorem C9_unique_ids (sortSlice : (Log → Log → Bool) → List Log → List Log)
    (hs : SortSliceContract sortSlice) (c : Client) (appName : String)
    (options : Option DescribeLogsOptions) (r : List Log)
    (hbuild : ∀ g s events,
      Call.GetLogEvents g s ∈ (DescribeLogs sortSlice c appName options).calls →
      c.GetLogEvents g s = .ok events →
      (events.map (fun e => (e.Timestamp.getD 0, e.Message.getD ""))).Nodup)
    (hdeploy : ∀ cluster names service rest,
      Call.DescribeServices cluster names ∈
        (DescribeLogs sortSlice c appName options).calls →
      c.DescribeServices cluster names = .ok (service :: rest) →
      (service.Events.map (fun e => e.Id.getD "")).Nodup)
    (h : (DescribeLogs sortSlice c appName options).out = .ret r none) :
    UniqueIDsPerProcess r := by
  obtain ⟨bl, dl, hperm, hbl, hdl⟩ := DescribeLogs_records hs h
  have hb : (bl.map Log.key).Nodup ∧ ∀ l ∈ bl, l.Process = BuilderProcess := by
    rcases hbl with hbl | ⟨buildID, events, g, s, hmap, hcall, hev⟩
    · subst hbl; simp
    · subst hmap
      refine ⟨builder_keys_nodup buildID events (hbuild g s events hcall hev), ?_⟩
      intro l hl
      obtain ⟨e, _, rfl⟩ := List.mem_map.mp hl
      rfl
  have hd : (dl.map Log.key).Nodup ∧ ∀ l ∈ dl, l.Process = DeployerProcess := by
    rcases hdl with hdl | ⟨cluster, names, service, rest, hmap, hcall, hsv⟩
    · subst hdl; simp
    · subst hmap
      refine ⟨deployer_keys_nodup service.Events (hdeploy cluster names service rest hcall hsv),
        ?_⟩
      intro l hl
      obtain ⟨e, _, rfl⟩ := List.mem_map.mp hl
      rfl
  have hall : ((bl ++ dl).map Log.key).Nodup := by
    rw [List.map_append]
    refine List.Nodup.append hb.1 hd.1 ?_
    intro k hk1 hk2
    obtain ⟨l1, hl1, rfl⟩ := List.mem_map.mp hk1
    obtain ⟨l2, hl2, he⟩ := List.mem_map.mp hk2
    have hp : l2.Process = l1.Process := congrArg Prod.fst he
    rw [hb.2 l1 hl1, hd.2 l2 hl2] at hp
    exact absurd hp (by decide)
  have hr : (r.map Log.key).Nodup := (hperm.map Log.key).nodup_iff.mpr hall
  intro i j hi hj hij hproc hid
  have hi2 : i < (r.map Log.key).length := by simpa using hi
  have hj2 : j < (r.map Log.key).length := by simpa using hj
  have hkey : (r.map Log.key)[i] = (r.map Log.key)[j] := by
    simp only [List.getElem_map, Log.key, hproc, hid]
  exact hij ((List.Nodup.getElem_inj_iff hr).mp hkey)

/-- C9 (witness): in the example scenario the ids of the returned records are unique. -/
theorem C9_unique_ids_witness :
    UniqueIDsPerProcess
      [builderLog (some "myapp:1") ⟨some 1, some "start\n"⟩,
        deployerLog ⟨some "ev-1", some (Time.Unix 0 2000000), some "steady state"⟩,
        builderLog (some "myapp:1") ⟨some 3, some "done\n\n"⟩] :=
  C9_unique_ids insertionSortSlice insertionSortSlice_contract exampleClient "myapp"
    (some ⟨"", ""⟩) _
    (by
      intro g s events _ h
      injection h with h
      subst h
      decide)
    (by
      intro cluster names service rest _ h
      injection h with h
      injection h with h1 h2
      subst h1
      decide)
    (by decide)

/-- C10 (counterexample): two build events with the same message, one without a timestamp and
one stamped 0 ms, give two records of one `describeBuilderLogs` call with the same id,
although the events' timestamps differ and so do the records' instants. -/
theorem C10_counterexample :
    (describeBuilderLogs nilTimestampClient "myapp").out =
        .ret [builderLog (some "myapp:1") ⟨none, some "boot\n"⟩,
          builderLog (some "myapp:1") ⟨some 0, some "boot\n"⟩] none ∧
      (builderLog (some "myapp:1") ⟨none, some "boot\n"⟩).ID =
        (builderLog (some "myapp:1") ⟨some 0, some "boot\n"⟩).ID ∧
      (⟨none, some "boot\n"⟩ : OutputLogEvent).Timestamp ≠
        (⟨some 0, some "boot\n"⟩ : OutputLogEvent).Timestamp ∧
      (builderLog (some "myapp:1") ⟨none, some "boot\n"⟩).Timestamp ≠
        (builderLog (some "myapp:1") ⟨some 0, some "boot\n"⟩).Timestamp := by
  refine ⟨?_, ?_, ?_, ?_⟩ <;> decide

/-- C10 (amended): for a fixed build identifier the id synthesis
`buildId ++ "-" ++ decimal(ts) ++ "-" ++ msg` is injective in the timestamp (any integer, so
any `int64`) and the message; consequently two records returned by one call of
`describeBuilderLogs` share an id only if their events have the same timestamp and the same
untrimmed message text, a nil timestamp counting as 0 and a nil message as the empty
string. -/
theorem C10_id_injective :
    (∀ (buildID : String) (ts1 ts2 : Int) (msg1 msg2 : String),
      Sprintf buildID ts1 msg1 = Sprintf buildID ts2 msg2 → ts1 = ts2 ∧ msg1 = msg2) ∧
    (∀ (c : Client) (appName : String) (buildID : Option String)
      (rest : List (Option String)) (build : Build) (builds : List Build)
      (location : LogsLocation) (events : List OutputLogEvent),
      c.ListBuildsForProject appName = .ok (buildID :: rest) →
      c.BatchGetBuilds [buildID] = .ok (build :: builds) →
      build.Logs = some location →
      c.GetLogEvents location.GroupName location.StreamName = .ok events →
      ∃ logs, (describeBuilderLogs c appName).out = .ret logs none ∧
        logs.length = events.length ∧
        ∀ (i j : Nat) (hi : i < logs.length) (hj : j < logs.length)
          (hi2 : i < events.length) (hj2 : j < events.length),
          logs[i].ID = logs[j].ID →
          events[i].Timestamp.getD 0 = events[j].Timestamp.getD 0 ∧
            events[i].Message.getD "" = events[j].Message.getD "") := by
  refine ⟨fun _ _ _ _ _ h => Sprintf_inj h, ?_⟩
  intro c appName buildID rest build builds location events hlist hbatch hloc hfetch
  refine ⟨events.map (builderLog buildID), ?_, by simp, ?_⟩
  · rw [describeBuilderLogs_fetch hlist hbatch hloc hfetch]
  · intro i j hi hj hi2 hj2 hid
    rw [List.getElem_map, List.getElem_map] at hid
    exact Sprintf_inj hid

/-- C10 (witness): in the example scenario the two records of the build have different ids,
as their events differ in timestamp. -/
theorem C10_id_injective_witness :
    Sprintf "myapp:1" 3 "done\n" = Sprintf "myapp:1" 3 "done\n" ∧
      ((3 : Int) = 3 ∧ "done\n" = "done\n") ∧
      (builderLog (some "myapp:1") ⟨some 1, some "start\n"⟩).ID ≠
        (builderLog (some "myapp:1") ⟨some 3, some "done\n\n"⟩).ID := by
  refine ⟨by decide, C10_id_injective.1 "myapp:1" 3 3 "done\n" "done\n" (by decide), ?_⟩
  obtain ⟨logs, hout, hlen, hinj⟩ := C10_id_injective.2 exampleClient "myapp" (some "myapp:1")
    [some "myapp:0"] ⟨some ⟨some "group", some "stream"⟩⟩ [] ⟨some "group", some "stream"⟩
    [⟨some 1, some "start\n"⟩, ⟨some 3, some "done\n\n"⟩] rfl rfl rfl rfl
  have hlogs : logs = [builderLog (some "myapp:1") ⟨some 1, some "start\n"⟩,
      builderLog (some "myapp:1") ⟨some 3, some "done\n\n"⟩] := by
    have h2 : (describeBuilderLogs exampleClient "myapp").out =
        .ret [builderLog (some "myapp:1") ⟨some 1, some "start\n"⟩,
          builderLog (some "myapp:1") ⟨some 3, some "done\n\n"⟩] none := by decide
    rw [hout] at h2
    injection h2
  subst hlogs
  intro hid
  exact absurd (hinj 0 1 (by decide) (by decide) (by decide) (by decide) hid).1 (by decide)

end Herogate
